import Mathlib

/-!
Verification of the repox manifest / sync engine.

The definitions below are a shallow embedding of the Rust sources:

* `Remote`, `Project`, `Default`, `Manifest`, … mirror the serde data model in
  `repox-manifest/src/*.rs` and `src/manifest/mod.rs` (both crates declare the
  same structures field for field; one embedding serves both).
* `projectStep` / `runInit` embed the loop body of `run_init`
  (`src/command/init.rs`, lines 224-290).  Rust panics (`Option::unwrap` on
  `None`) are embedded as distinguished `InitAbort` values, `?`-propagated
  collaborator failures as `InitAbort.gitError`.  The external git collaborator
  (directory creation, URL parsing, clone, fetch, checkout, default-remote
  lookup) is abstracted into one oracle call per project, and the run is
  embedded with an explicit trace of the clone calls it issued, in order.
* The tree-overlay applier and the include-following loader described by the
  spec have no implementation under the sources (only the `Copyfile` and
  `Include` declarations exist); they are modelled from the spec where needed
  and marked as such.
-/

deriving instance DecidableEq for Except

namespace Repox

/-- Embedding of `Remote` (repox-manifest/src/remote.rs). -/
structure Remote where
  name : String
  aliasName : Option String
  fetch : String
  pushurl : Option String
  review : Option String
  revision : Option String
deriving DecidableEq, Repr

/-- Embedding of `Annotation` (repox-manifest/src/project.rs). -/
structure ProjAnnotation where
  name : String
  value : String
  keep : String
deriving DecidableEq, Repr

/-- Embedding of `Copyfile` (repox-manifest/src/project.rs). -/
structure Copyfile where
  src : String
  dest : String
deriving DecidableEq, Repr

/-- Embedding of `LinkFile` (repox-manifest/src/project.rs). -/
structure LinkFile where
  src : String
  dest : String
deriving DecidableEq, Repr

/-- Embedding of `Project` (repox-manifest/src/project.rs).  The structure is
recursive through the nested `project` children, so it is declared as an
inductive with positional fields and named accessors below.  Field order
matches the Rust declaration. -/
inductive Project where
  | mk
    ( annotations : Option (List ProjAnnotation))
    (project : Option (List Project))
    (copyfile : Option (List Copyfile))
    (linkfile : Option (List LinkFile))
    (name : String)
    (path : Option String)
    (remote : Option String)
    (revision : Option String)
    (dest_branch : Option String)
    (groups : Option String)
    (sync_c : Option String)
    (sync_s : Option String)
    (sync_tags : Option String)
    (upstream : Option String)
    (clone_depth : Option String)
    (force_path : Option String)
    : Project

/-- Accessor for the `name` field of `Project`. -/
def Project.name : Project → String
  | .mk _ _ _ _ n _ _ _ _ _ _ _ _ _ _ _ => n

/-- Accessor for the `path` field of `Project`. -/
def Project.path : Project → Option String
  | .mk _ _ _ _ _ p _ _ _ _ _ _ _ _ _ _ => p

/-- Accessor for the `remote` field of `Project`. -/
def Project.remote : Project → Option String
  | .mk _ _ _ _ _ _ r _ _ _ _ _ _ _ _ _ => r

/-- Accessor for the nested `project` children of `Project`. -/
def Project.children : Project → Option (List Project)
  | .mk _ c _ _ _ _ _ _ _ _ _ _ _ _ _ _ => c

/-- Accessor for the `copyfile` field of `Project`. -/
def Project.copyfiles : Project → Option (List Copyfile)
  | .mk _ _ c _ _ _ _ _ _ _ _ _ _ _ _ _ => c

/-- Replace the nested `project` children of a `Project`, keeping every other
field.  Used to state that the run ignores nested children. -/
def Project.withChildren : Project → Option (List Project) → Project
  | .mk a _ c l n p r rev db g sc ss st u cd fp, ch =>
      .mk a ch c l n p r rev db g sc ss st u cd fp

/-- Convenience constructor: a project with only the fields `run_init` reads
(name, path, remote) plus optional children and copyfiles; every other
attribute absent, as for a manifest entry that does not set them. -/
def mkProject (name : String) (path remote : Option String)
    (children : Option (List Project)) (cfs : Option (List Copyfile)) : Project :=
  .mk none children cfs none name path remote none none none none none none none none none

/-- Embedding of `Default` (src/manifest/default.rs). -/
structure Default where
  remote : Option String
  revision : Option String
  dest_branch : Option String
  upstream : Option String
  sync_j : Option String
  sync_c : Option String
  sync_s : Option String
  sync_tags : Option String
deriving DecidableEq, Repr

/-- Embedding of `ManifestServer` (repox-manifest/src/manifest_server.rs). -/
structure ManifestServer where
  url : String
deriving DecidableEq, Repr

/-- Embedding of `RemoveProject` (repox-manifest/src/remove_project.rs). -/
structure RemoveProject where
  name : String
deriving DecidableEq, Repr

/-- Embedding of `ExtendProject` (src/manifest/extend_project.rs). -/
structure ExtendProject where
  name : String
  path : Option String
  groups : Option String
  revision : Option String
  remote : Option String
deriving DecidableEq, Repr

/-- Embedding of `Include` (src/manifest/include.rs): just the included
manifest's name. -/
structure Include where
  name : String
deriving DecidableEq, Repr

/-- Embedding of `RepoHooks` (repox-manifest/src/repo_hooks.rs). -/
structure RepoHooks where
  in_project : String
  enabled_list : String
deriving DecidableEq, Repr

/-- Embedding of `Notice` (empty struct in src/manifest/mod.rs). -/
structure Notice where
deriving DecidableEq, Repr

/-- Embedding of `Manifest` (repox-manifest/src/lib.rs, identically declared in
src/manifest/mod.rs).  Field order matches the Rust declaration; the Rust
field `include` is spelled `includes` because `include` is a Lean keyword. -/
structure Manifest where
  notice : Option Notice
  remote : Option (List Remote)
  default : Option Default
  manifest_server : Option ManifestServer
  remove_project : Option (List RemoveProject)
  project : Option (List Project)
  extend_project : Option (List ExtendProject)
  repo_hooks : Option RepoHooks
  includes : Option (List Include)

/-- Embedding of `Manifest::projects` (repox-manifest/src/lib.rs lines 84-86):
`self.project.clone().unwrap_or_default()`. -/
def Manifest.projects (m : Manifest) : List Project :=
  m.project.getD []

/-- Embedding of `Manifest::remotes` (repox-manifest/src/lib.rs lines 88-90):
`self.remote.clone().unwrap_or_default()`. -/
def Manifest.remotes (m : Manifest) : List Remote :=
  m.remote.getD []

/-- Embedding of the remote lookup performed per project in `run_init`
(src/command/init.rs lines 235-239) before the final `.unwrap()`:
`manifest.remotes().into_iter().find(|remote| remote.name == name)`. -/
def lookupRemote (m : Manifest) (name : String) : Option Remote :=
  m.remotes.find? (fun r => r.name == name)

/-- Opaque failure of the external git collaborator (URL parsing, clone,
fetch, checkout, …); the run only propagates it. -/
structure GitError where
  msg : String
deriving DecidableEq, Repr

/-- How one pass of the `run_init` loop body aborts: a Rust panic from one of
the three `unwrap()` calls, or an error `?`-propagated from the external
collaborator. -/
inductive InitAbort where
  | panicNoRemoteAttr (projectName : String)
  | panicRemoteNotFound (remoteName : String)
  | panicNoPathAttr (projectName : String)
  | gitError (e : GitError)
deriving DecidableEq, Repr

/-- A clone request handed to the external git collaborator: the URL built at
src/command/init.rs line 243 and the destination from line 245. -/
structure CloneCall where
  url : String
  dst : String
deriving DecidableEq, Repr

/-- Embedding of the pure prefix of the `run_init` loop body
(src/command/init.rs lines 235-246), in source order:

1. `project.remote.clone().unwrap()` — panics when the attribute is absent;
2. `manifest.remotes().into_iter().find(..).unwrap()` — panics when no remote
   of that name exists;
3. `let repo_url = format!("{}/{}", remote.fetch, project.name)`;
4. `let dst = project.path.unwrap()` — panics when the attribute is absent. -/
def projectStep (m : Manifest) (p : Project) : Except InitAbort CloneCall :=
  match p.remote with
  | none => .error (.panicNoRemoteAttr p.name)
  | some rname =>
    match lookupRemote m rname with
    | none => .error (.panicRemoteNotFound rname)
    | some remote =>
      let repo_url := remote.fetch ++ "/" ++ p.name
      match p.path with
      | none => .error (.panicNoPathAttr p.name)
      | some dst => .ok ⟨repo_url, dst⟩

/-- Embedding of the `for project in manifest.projects()` loop of `run_init`
(src/command/init.rs lines 232-287).  `g` is the external git collaborator:
one oracle call per project covering directory creation, URL parsing, clone,
fetch, checkout and the default-remote lookup, all of which propagate errors
with `?`.  The returned list is the trace of clone calls attempted, in order;
the `Except` is the run's result.  Any abort returns immediately, exactly as
the `?`/panic in the loop body does. -/
def runInitAux (g : CloneCall → Except GitError Unit) (m : Manifest) :
    List Project → List CloneCall × Except InitAbort Unit
  | [] => ([], .ok ())
  | p :: ps =>
    match projectStep m p with
    | .error a => ([], .error a)
    | .ok call =>
      match g call with
      | .error e => ([call], .error (.gitError e))
      | .ok () =>
        let rest := runInitAux g m ps
        (call :: rest.1, rest.2)

/-- Embedding of `run_init` (src/command/init.rs lines 224-290), from the
point where the manifest has been deserialized. -/
def runInit (g : CloneCall → Except GitError Unit) (m : Manifest) :
    List CloneCall × Except InitAbort Unit :=
  runInitAux g m m.projects

/-- An empty manifest to build concrete inputs from. -/
def emptyManifest : Manifest :=
  ⟨none, none, none, none, none, none, none, none, none⟩

/-- A remote named `origin` with fetch prefix `https://e.com`. -/
def originRemote : Remote :=
  ⟨"origin", none, "https://e.com", none, none, none⟩

/-- A manifest with the single remote `origin` and one project `foo` that sets
both `remote="origin"` and `path="foo"`. -/
def m1 : Manifest :=
  { emptyManifest with
      remote := some [originRemote]
      project := some [mkProject "foo" (some "foo") (some "origin") none none] }

/-- A manifest like `m1` but whose project supplies no `path` attribute. -/
def m3 : Manifest :=
  { emptyManifest with
      remote := some [originRemote]
      project := some [mkProject "foo" none (some "origin") none none] }

/-- A manifest whose `default` element names the remote `origin` and whose
project `foo` supplies no `remote` attribute of its own. -/
def m4 : Manifest :=
  { emptyManifest with
      remote := some [originRemote]
      default := some ⟨some "origin", none, none, none, none, none, none, none⟩
      project := some [mkProject "foo" (some "foo") none none none] }

/-- C1: the clone URL handed to the git collaborator for project `foo` of
remote `origin` (fetch prefix `https://e.com`) is `https://e.com/foo` — the
code builds `format!("{}/{}", remote.fetch, project.name)` with no `.git`
suffix, although the claim (and the code's own documentation of
`Project::name`, `${remote_fetch}/${project_name}.git`) requires
`https://e.com/foo.git`. -/
theorem c1_clone_url_lacks_git_suffix :
    runInit (fun _ => .ok ()) m1 = ([⟨"https://e.com/foo", "foo"⟩], .ok ())
    ∧ "https://e.com/foo" ≠ originRemote.fetch ++ "/" ++ "foo" ++ ".git" := by
  exact ⟨rfl, by decide⟩

/-- C3: a project whose manifest entry supplies no `path` attribute does not
default to its name — `run_init` panics at `project.path.unwrap()`
(src/command/init.rs line 245) before any git call is attempted, although the
claim (and the code's own documentation of `Project::path`) says the name is
used. -/
theorem c3_missing_path_panics :
    runInit (fun _ => .ok ()) m3 = ([], .error (.panicNoPathAttr "foo")) := by
  rfl

/-- C4: a project without a `remote` attribute does not fall back to the
`default` element's remote and no `UnresolvedRemote`-style error is produced —
`run_init` panics at `project.remote.clone().unwrap()` (src/command/init.rs
line 238) even though `m4.default` names the existing remote `origin`; the
`default` field is never consulted. -/
theorem c4_default_remote_ignored_panics :
    runInit (fun _ => .ok ()) m4 = ([], .error (.panicNoRemoteAttr "foo"))
    ∧ m4.default = some ⟨some "origin", none, none, none, none, none, none, none⟩
    ∧ lookupRemote m4 "origin" = some originRemote := by
  exact ⟨rfl, rfl, by decide⟩

/-- A remote named `r` with fetch prefix `A`. -/
def remoteA : Remote := ⟨"r", none, "A", none, none, none⟩

/-- A manifest with two well-formed projects `p1` and `p2` on remote `r`. -/
def m2 : Manifest :=
  { emptyManifest with
      remote := some [remoteA]
      project := some [mkProject "p1" (some "p1") (some "r") none none,
                       mkProject "p2" (some "p2") (some "r") none none] }

/-- A git collaborator that fails (permanently) on the clone of `p1` and
succeeds on everything else. -/
def g2 : CloneCall → Except GitError Unit :=
  fun c => if c.url = "A/p1" then .error ⟨"network"⟩ else .ok ()

/-- C2 counterexample: with two projects and a permanent failure on the first,
the run does not drain the sync set — it returns after the first failure with
a single error, the trace shows only `p1` was attempted, and no two-entry
per-project result sequence exists (`run_init` yields `Result<(), InitError>`,
its loop body propagating every failure with `?`). -/
theorem c2_counterexample :
    m2.projects.length = 2
    ∧ runInit g2 m2 = ([⟨"A/p1", "p1"⟩], .error (.gitError ⟨"network"⟩)) := by
  exact ⟨rfl, by decide⟩

/-- C2 amended: a per-project failure aborts the whole run at once — when the
projects split as `pre ++ p :: post` with every project of `pre` succeeding
and `p`'s git operation failing, the run returns that single error and the
trace of attempted clone calls has length `pre.length + 1`, independent of
`post`: the projects after the failure are never attempted and no per-project
result entries are produced. -/
theorem c2_amended_first_failure_aborts_run
    (g : CloneCall → Except GitError Unit) (m : Manifest)
    (pre post : List Project) (p : Project) (c : CloneCall) (e : GitError)
    (hm : m.projects = pre ++ p :: post)
    (hpre : ∀ q ∈ pre, ∃ cq, projectStep m q = .ok cq ∧ g cq = .ok ())
    (hp : projectStep m p = .ok c) (hg : g c = .error e) :
    (runInit g m).2 = .error (.gitError e)
    ∧ (runInit g m).1.length = pre.length + 1 := by
  unfold runInit
  rw [hm]
  clear hm
  induction pre with
  | nil =>
    simp [runInitAux, hp, hg]
  | cons q qs ih =>
    obtain ⟨cq, hq, hgq⟩ := hpre q (by simp)
    have ih' := ih (fun x hx => hpre x (by simp [hx]))
    simp only [List.cons_append, runInitAux, hq, hgq]
    exact ⟨ih'.1, by simp [ih'.2]⟩

/-- C2 amended, witness at the concrete two-project manifest `m2` with the
collaborator `g2` failing on `p1`. -/
theorem c2_amended_witness :
    (runInit g2 m2).2 = .error (.gitError ⟨"network"⟩)
    ∧ (runInit g2 m2).1.length = ([] : List Project).length + 1 :=
  c2_amended_first_failure_aborts_run g2 m2 []
    [mkProject "p2" (some "p2") (some "r") none none]
    (mkProject "p1" (some "p1") (some "r") none none)
    ⟨"A/p1", "p1"⟩ ⟨"network"⟩ rfl (by simp) (by decide) (by decide)

/-- A manifest defining the remote name `origin` twice — fetch prefix `A`
first, `B` second — and a project `p` on remote `origin`. -/
def m5 : Manifest :=
  { emptyManifest with
      remote := some [⟨"origin", none, "A", none, none, none⟩,
                      ⟨"origin", none, "B", none, none, none⟩]
      project := some [mkProject "p" (some "p") (some "origin") none none] }

/-- C5 counterexample: when `origin` is defined twice, `remotes()` keeps both
records (the name does not map to exactly one record), and the lookup used for
a project's remote (`find` in src/command/init.rs line 238) returns the FIRST
definition (fetch `A`), not the last (`B`): the run clones from `A/p`. -/
theorem c5_counterexample :
    (m5.remotes.filter (fun r => r.name == "origin")).length = 2
    ∧ lookupRemote m5 "origin" = some ⟨"origin", none, "A", none, none, none⟩
    ∧ runInit (fun _ => .ok ()) m5 = ([⟨"A/p", "p"⟩], .ok ())
    ∧ (⟨"origin", none, "A", none, none, none⟩ : Remote)
        ≠ ⟨"origin", none, "B", none, none, none⟩ := by
  exact ⟨by decide, by decide, by decide, by decide⟩

/-- C5 amended: duplicate remote names are kept as distinct records, and the
lookup used for a project's remote is first-wins — if the merged remote
sequence is `rs₁ ++ r :: rs₂` with no remote of `rs₁` named `n` and `r` named
`n`, then the lookup for `n` returns `r`, the earliest definition. -/
theorem c5_amended_lookup_first_wins
    (m : Manifest) (rs₁ rs₂ : List Remote) (r : Remote) (n : String)
    (hm : m.remotes = rs₁ ++ r :: rs₂) (hr : r.name = n)
    (h1 : ∀ r' ∈ rs₁, r'.name ≠ n) :
    lookupRemote m n = some r := by
  unfold lookupRemote
  rw [hm]
  clear hm
  induction rs₁ with
  | nil =>
    simp [List.find?_cons_of_pos, hr]
  | cons a as ih =>
    rw [List.cons_append, List.find?_cons_of_neg, ih]
    · exact fun x hx => h1 x (by simp [hx])
    · simp [h1 a (by simp)]

/-- C5 amended, witness: at `m5` the lookup of `origin` returns the first
definition (fetch prefix `A`). -/
theorem c5_amended_witness :
    lookupRemote m5 "origin" = some ⟨"origin", none, "A", none, none, none⟩ :=
  c5_amended_lookup_first_wins m5 []
    [⟨"origin", none, "B", none, none, none⟩]
    ⟨"origin", none, "A", none, none, none⟩ "origin" rfl rfl (by simp)

/-- A manifest whose only project `a` carries a nested child project `b`. -/
def m9 : Manifest :=
  { emptyManifest with
      remote := some [originRemote]
      project := some [mkProject "a" (some "a") (some "origin")
                        (some [mkProject "b" (some "b") (some "origin") none none]) none] }

/-- C9 counterexample: the nested child `b` of project `a` appears nowhere in
the resolved project table — `projects()` returns only the top-level element
`a`, no entry is named `a/b` (the parent-prefixed name the claim requires) or
even `b`, and only `a` is materialized. -/
theorem c9_counterexample :
    (m9.projects.map Project.name) = ["a"]
    ∧ (m9.projects.all
        (fun q => !(Project.name q == "a/b") && !(Project.name q == "b"))) = true
    ∧ (runInit (fun _ => .ok ()) m9).1 = [⟨"https://e.com/a", "a"⟩] := by
  exact ⟨rfl, by decide, by decide⟩

/-- Auxiliary for C9: the per-project step of `run_init` reads only the
`name`, `remote` and `path` attributes, so replacing a project's nested
children leaves it unchanged. -/
theorem projectStep_withChildren (m : Manifest) (p : Project)
    (c : Option (List Project)) :
    projectStep m (p.withChildren c) = projectStep m p := by
  cases p
  rfl

/-- C9 amended: nested child project elements are parsed but ignored — the run
is invariant under arbitrarily rewriting every project's nested `project`
field, so children are never entered into the project table nor materialized,
with or without prefixing or inheritance. -/
theorem c9_amended_children_ignored
    (g : CloneCall → Except GitError Unit) (m : Manifest)
    (ps : List Project) (f : Project → Option (List Project)) :
    runInitAux g m (ps.map (fun p => p.withChildren (f p))) = runInitAux g m ps := by
  induction ps with
  | nil => rfl
  | cons p ps ih =>
    simp only [List.map_cons, runInitAux, projectStep_withChildren, ih]

/-- C10: the accessors `projects()` and `remotes()` are total functions of the
parsed manifest (they are embedded as plain Lean functions because the Rust
code, `self.project.clone().unwrap_or_default()`, cannot fail and does not
mutate `self`), and they return the empty sequence exactly when the manifest
declares no project (respectively remote) elements. -/
theorem c10_accessors_total_and_empty (m : Manifest) :
    (m.projects = [] ↔ (m.project = none ∨ m.project = some []))
    ∧ (m.remotes = [] ↔ (m.remote = none ∨ m.remote = some []))
    ∧ m.projects = m.projects ∧ m.remotes = m.remotes := by
  refine ⟨?_, ?_, rfl, rfl⟩
  · cases h : m.project <;> simp [Manifest.projects, h]
  · cases h : m.remote <;> simp [Manifest.remotes, h]

/-- Modelled from the spec: path splitting for the Tree Overlay Applier
(spec section 4.5).  No overlay implementation exists under the sources — only
the `Copyfile` declaration — so the applier is modelled from the spec's words.
A textual path is split into its slash-separated segments. -/
def splitPathAux (ch : Char) (acc : List (List Char)) : List (List Char) :=
  if ch = '/' then [] :: acc
  else
    match acc with
    | cur :: rest => (ch :: cur) :: rest
    | [] => [[ch]]

/-- Modelled from the spec: the slash-separated segments of a textual path,
computed by a structural fold over the characters (semantically the same as
splitting on `/`). -/
def splitPath (s : String) : List String :=
  (s.data.foldr splitPathAux [[]]).map (fun cs => ⟨cs⟩)

/-- Modelled from the spec (section 4.5): resolve a relative path against a
base by processing its segments; `.` and empty segments are skipped, `..`
steps up one segment, and stepping above the base — the path-escape case — is
signalled as `none`. -/
def normalizeSegs (segs : List String) : Option (List String) :=
  segs.foldl
    (fun acc seg =>
      match acc with
      | none => none
      | some done =>
        if seg = "." ∨ seg = "" then some done
        else if seg = ".." then
          match done with
          | [] => none
          | _ => some done.dropLast
        else some (done ++ [seg]))
    (some [])

/-- Modelled from the spec (section 4.5): the overlay failure for a copy-file
pair whose source or destination escapes its containment root, naming the
offending pair. -/
inductive OverlayError where
  | PathEscapeError (src dest : String)
deriving DecidableEq, Repr

/-- Modelled from the spec (section 4.5): apply one copy-file pair.  `src` is
resolved relative to the project root and must remain within it; `dest` is
resolved relative to the workspace root and must remain within it; any escape
fails with `PathEscapeError` naming the pair and creates no file.  The file
system is modelled as the list of (absolute, segment-wise) files created; on
success the destination file is created under the workspace root. -/
def applyCopyfile (projRoot wsRoot : List String) (fs : List (List String))
    (c : Copyfile) : Except OverlayError (List (List String)) :=
  match normalizeSegs (splitPath c.src) with
  | none => .error (.PathEscapeError c.src c.dest)
  | some _ =>
    match normalizeSegs (splitPath c.dest) with
    | none => .error (.PathEscapeError c.src c.dest)
    | some destRel => .ok (fs ++ [wsRoot ++ destRel])

/-- Modelled from the spec (section 4.5): a project's overlay step applies its
copy-file pairs in order; the first failing pair marks the project's overlay
step failed, leaving the file system as it was before that pair. -/
def applyProjectOverlay (wsRoot projRoot : List String)
    (fs : List (List String)) :
    List Copyfile → List (List String) × Option OverlayError
  | [] => (fs, none)
  | c :: cs =>
    match applyCopyfile projRoot wsRoot fs c with
    | .error e => (fs, some e)
    | .ok fs' => applyProjectOverlay wsRoot projRoot fs' cs

/-- Modelled from the spec (sections 4.5 and 7): overlays run per project and
a failed overlay step never aborts the other projects' overlays — every
project of the set is processed and gets its own outcome entry. -/
def overlayAll (wsRoot : List String) (fs : List (List String)) :
    List (List String × List Copyfile) →
      List (Option OverlayError) × List (List String)
  | [] => ([], fs)
  | (projRoot, cs) :: rest =>
    let step := applyProjectOverlay wsRoot projRoot fs cs
    let next := overlayAll wsRoot step.1 rest
    (step.2 :: next.1, next.2)

/-- C6: a copy-file pair whose source resolves outside the project root or
whose destination resolves outside the workspace root fails with a path-escape
error naming the offending pair; the failing pair creates no file (the file
system is returned unchanged by the project's overlay step up to that pair);
and a failing overlay never aborts the other projects' overlays — every
project of the set still receives its own outcome entry. -/
theorem c6_copyfile_escape_fails_locally
    (wsRoot projRoot : List String) (fs : List (List String))
    (c : Copyfile) (cs : List Copyfile)
    (h : normalizeSegs (splitPath c.src) = none
         ∨ normalizeSegs (splitPath c.dest) = none) :
    applyCopyfile projRoot wsRoot fs c = .error (.PathEscapeError c.src c.dest)
    ∧ applyProjectOverlay wsRoot projRoot fs (c :: cs)
        = (fs, some (.PathEscapeError c.src c.dest))
    ∧ ∀ (projs : List (List String × List Copyfile)) (fs0 : List (List String)),
        ((overlayAll wsRoot fs0 projs).1).length = projs.length := by
  have hfail :
      applyCopyfile projRoot wsRoot fs c
        = .error (.PathEscapeError c.src c.dest) := by
    unfold applyCopyfile
    rcases h with h | h
    · rw [h]
    · cases hsrc : normalizeSegs (splitPath c.src) with
      | none => rfl
      | some v => rw [h]
  refine ⟨hfail, ?_, ?_⟩
  · unfold applyProjectOverlay
    rw [hfail]
  · intro projs
    induction projs with
    | nil => intro fs0; rfl
    | cons pr rest ih =>
      intro fs0
      simp only [overlayAll, List.length_cons]
      rw [ih]

/-- C6, witness: the spec's own example pair, `src="../../etc/passwd"`,
escapes the project root and fails with the path-escape error naming it,
creating no file and leaving other projects' overlays unaffected. -/
theorem c6_witness :
    (normalizeSegs (splitPath "../../etc/passwd") = none
      ∨ normalizeSegs (splitPath "secret") = none)
    ∧ applyCopyfile ["proj"] ["ws"] [] ⟨"../../etc/passwd", "secret"⟩
        = .error (.PathEscapeError "../../etc/passwd" "secret")
    ∧ applyProjectOverlay ["ws"] ["proj"] [] [⟨"../../etc/passwd", "secret"⟩]
        = ([], some (.PathEscapeError "../../etc/passwd" "secret"))
    ∧ ∀ (projs : List (List String × List Copyfile)) (fs0 : List (List String)),
        ((overlayAll ["ws"] fs0 projs).1).length = projs.length := by
  have h : normalizeSegs (splitPath "../../etc/passwd") = none
      ∨ normalizeSegs (splitPath "secret") = none := Or.inl (by decide)
  exact ⟨h,
    c6_copyfile_escape_fails_locally ["ws"] ["proj"] [] ⟨"../../etc/passwd", "secret"⟩ [] h⟩

/-- Modelled from the spec (section 4.1): load errors of the raw manifest
loader.  No loader exists under the sources — only the `Include` declaration —
so the loader is modelled from the spec's words: `CyclicInclude` identifies
the cycle chain, `IncludeNotFound` names the missing file. -/
inductive LoadError where
  | CyclicInclude (chain : List String)
  | IncludeNotFound (missing : String)
deriving DecidableEq, Repr

/-- Modelled from the spec (section 4.1): the manifest collection, given as an
association list from file name to the names that file includes (the content
of each raw document is irrelevant to the include graph). -/
def lookupFile (files : List (String × List String)) (n : String) :
    Option (List String) :=
  (files.find? (fun pr => pr.1 == n)).map Prod.snd

/-- Modelled from the spec (section 4.1): expand a list of sibling includes in
order with the loader `f`, concatenating the documents each produces;
the first failure (or fuel exhaustion, `none`) propagates. -/
def runMany (f : String → Option (Except LoadError (List String))) :
    List String → Option (Except LoadError (List String))
  | [] => some (.ok [])
  | i :: is =>
    match f i with
    | none => none
    | some (.error e) => some (.error e)
    | some (.ok docs) =>
      match runMany f is with
      | none => none
      | some (.error e) => some (.error e)
      | some (.ok rest) => some (.ok (docs ++ rest))

/-- Modelled from the spec (section 4.1): depth-first, pre-order loading of a
manifest file — includes fully expanded first, the document itself appended
last.  The chain of files currently being expanded is carried as `stack`; a
file found on its own chain is a cyclic include and fails with `CyclicInclude`
identifying that chain.  Fuel bounds the recursion depth; `none` means the
fuel ran out (the entry point `load` supplies provably sufficient fuel). -/
def loadOne (files : List (String × List String)) :
    Nat → List String → String → Option (Except LoadError (List String))
  | 0, _, _ => none
  | fuel + 1, stack, name =>
    if name ∈ stack then some (.error (.CyclicInclude (stack ++ [name])))
    else
      match lookupFile files name with
      | none => some (.error (.IncludeNotFound name))
      | some incs =>
        match runMany (loadOne files fuel (stack ++ [name])) incs with
        | none => none
        | some (.error e) => some (.error e)
        | some (.ok docs) => some (.ok (docs ++ [name]))

/-- Modelled from the spec (section 4.1): load a manifest collection from its
root file.  The fuel `files.length + 1` is sufficient (proved below), so the
fallback branch is unreachable. -/
def load (files : List (String × List String)) (root : String) :
    Except LoadError (List String) :=
  (loadOne files (files.length + 1) [] root).getD (.error (.CyclicInclude []))

/-- One edge of the include graph: file `a` exists and lists `b` among its
includes. -/
def Step (files : List (String × List String)) (a b : String) : Prop :=
  ∃ incs, lookupFile files a = some incs ∧ b ∈ incs

/-- The file `n` transitively includes a file that transitively includes
itself: the include graph reachable from `n` contains a cycle. -/
def ReachesCycle (files : List (String × List String)) (n : String) : Prop :=
  ∃ a, Relation.ReflTransGen (Step files) n a ∧ Relation.TransGen (Step files) a a

/-- Every file the collection mentions as an include is itself present in the
collection (the include graph is closed, so no `IncludeNotFound` can occur). -/
def ClosedWorld (files : List (String × List String)) : Prop :=
  ∀ pr ∈ files, ∀ i ∈ pr.2, i ∈ files.map Prod.fst

/-- A successful file lookup means the name is among the collection's keys. -/
theorem mem_keys_of_lookupFile (files : List (String × List String))
    (n : String) (incs : List String) (h : lookupFile files n = some incs) :
    n ∈ files.map Prod.fst := by
  unfold lookupFile at h
  obtain ⟨pr, hfind⟩ : ∃ pr, files.find? (fun pr => pr.1 == n) = some pr := by
    cases hf : files.find? (fun pr => pr.1 == n) with
    | none => rw [hf] at h; exact absurd h (by simp)
    | some pr => exact ⟨pr, rfl⟩
  have hmem := List.mem_of_find?_eq_some hfind
  have heq : pr.1 = n := by
    have := List.find?_some hfind
    simpa using this
  exact heq ▸ List.mem_map_of_mem Prod.fst hmem

/-- The includes a lookup returns are the second component of a pair of the
collection. -/
theorem pair_of_lookupFile (files : List (String × List String))
    (n : String) (incs : List String) (h : lookupFile files n = some incs) :
    ∃ pr ∈ files, pr.2 = incs := by
  unfold lookupFile at h
  cases hf : files.find? (fun pr => pr.1 == n) with
  | none => rw [hf] at h; exact absurd h (by simp)
  | some pr =>
    rw [hf] at h
    exact ⟨pr, List.mem_of_find?_eq_some hf, by simpa using h⟩

/-- Expanding sibling includes never runs out of fuel when no single include
does. -/
theorem runMany_ne_none (f : String → Option (Except LoadError (List String)))
    (is : List String) (h : ∀ i ∈ is, f i ≠ none) :
    runMany f is ≠ none := by
  induction is with
  | nil => simp [runMany]
  | cons i is ih =>
    simp only [runMany]
    cases hf : f i with
    | none => exact absurd hf (h i (by simp))
    | some r =>
      cases r with
      | error e => simp
      | ok docs =>
        cases hm : runMany f is with
        | none => exact absurd hm (ih (fun j hj => h j (by simp [hj])))
        | some r' => cases r' <;> simp

/-- A loader result that is not an `IncludeNotFound` failure. -/
def NotNotFound (r : Option (Except LoadError (List String))) : Prop :=
  ∀ n, r ≠ some (.error (.IncludeNotFound n))

/-- Sibling expansion produces no `IncludeNotFound` when no single include
does. -/
theorem runMany_notNotFound
    (f : String → Option (Except LoadError (List String)))
    (is : List String) (h : ∀ i ∈ is, NotNotFound (f i)) :
    NotNotFound (runMany f is) := by
  induction is with
  | nil => intro n; simp [runMany]
  | cons i is ih =>
    intro n
    simp only [runMany]
    cases hf : f i with
    | none => simp
    | some r =>
      cases r with
      | error e =>
        have := h i (by simp) n
        rw [hf] at this
        simpa using fun he => this (by rw [he])
      | ok docs =>
        cases hm : runMany f is with
        | none => simp
        | some r' =>
          cases r' with
          | error e =>
            have := ih (fun j hj => h j (by simp [hj])) n
            rw [hm] at this
            simpa using fun he => this (by rw [he])
          | ok rest => simp

/-- Sibling expansion cannot succeed when one of the siblings cannot. -/
theorem runMany_not_ok (f : String → Option (Except LoadError (List String)))
    (is : List String) (i : String) (hi : i ∈ is)
    (h : ∀ v, f i ≠ some (.ok v)) :
    ∀ v, runMany f is ≠ some (.ok v) := by
  induction is with
  | nil => cases hi
  | cons j js ih =>
    intro v
    simp only [runMany]
    cases hf : f j with
    | none => simp
    | some r =>
      cases r with
      | error e => simp
      | ok docs =>
        rcases List.mem_cons.mp hi with rfl | hi'
        · exact absurd hf (h docs)
        · cases hm : runMany f js with
          | none => simp
          | some r' =>
            cases r' with
            | error e => simp
            | ok rest =>
              exact absurd hm (ih hi' rest)

/-- A chain whose members are distinct keys of the collection is no longer
than the collection. -/
theorem stack_length_le (files : List (String × List String))
    (stack : List String) (hnd : stack.Nodup)
    (hsub : ∀ s ∈ stack, s ∈ files.map Prod.fst) :
    stack.length ≤ files.length := by
  have h1 : stack.Subperm (files.map Prod.fst) :=
    List.Nodup.subperm hnd hsub
  have h2 := h1.length_le
  simpa using h2

/-- Fuel sufficiency: with fuel exceeding the number of files not yet on the
chain, the loader never runs out of fuel — it terminates with a result on
every input. -/
theorem loadOne_ne_none (files : List (String × List String)) :
    ∀ (fuel : Nat) (stack : List String) (name : String),
      stack.Nodup → (∀ s ∈ stack, s ∈ files.map Prod.fst) →
      files.length + 1 ≤ fuel + stack.length →
      loadOne files fuel stack name ≠ none := by
  intro fuel
  induction fuel with
  | zero =>
    intro stack name hnd hsub hle
    have := stack_length_le files stack hnd hsub
    omega
  | succ fuel ih =>
    intro stack name hnd hsub hle
    simp only [loadOne]
    by_cases hmem : name ∈ stack
    · simp [hmem]
    · simp only [hmem, if_false]
      split
      · simp
      · rename_i incs hlook
        have hkey := mem_keys_of_lookupFile files name incs hlook
        have hstack' : (stack ++ [name]).Nodup := by
          simp [List.nodup_append, hnd, hmem]
        have hsub' : ∀ s ∈ stack ++ [name], s ∈ files.map Prod.fst := by
          intro s hs
          rcases List.mem_append.mp hs with hs | hs
          · exact hsub s hs
          · simp at hs; exact hs ▸ hkey
        have hle' : files.length + 1 ≤ fuel + (stack ++ [name]).length := by
          simp; omega
        have hrm : runMany (loadOne files fuel (stack ++ [name])) incs ≠ none :=
          runMany_ne_none _ _ (fun i _ => ih (stack ++ [name]) i hstack' hsub' hle')
        split
        · rename_i hm; exact absurd hm hrm
        · simp
        · simp

/-- In a closed collection the loader never reports `IncludeNotFound` when
started on a present file. -/
theorem loadOne_notNotFound (files : List (String × List String))
    (hcw : ClosedWorld files) :
    ∀ (fuel : Nat) (stack : List String) (name : String),
      name ∈ files.map Prod.fst →
      NotNotFound (loadOne files fuel stack name) := by
  intro fuel
  induction fuel with
  | zero => intro stack name _ n; simp [loadOne]
  | succ fuel ih =>
    intro stack name hkey n
    simp only [loadOne]
    by_cases hmem : name ∈ stack
    · simp [hmem]
    · simp only [hmem, if_false]
      split
      · rename_i hlook
        obtain ⟨pr, hpr, hfst⟩ := List.mem_map.mp hkey
        exfalso
        unfold lookupFile at hlook
        have hfind : files.find? (fun q => q.1 == name) = none := by
          cases hf : files.find? (fun q => q.1 == name) with
          | none => rfl
          | some q => rw [hf] at hlook; simp at hlook
        have hcontra := List.find?_eq_none.mp hfind pr hpr
        simp [hfst] at hcontra
      · rename_i incs hlook
        obtain ⟨pr, hpr, hsnd⟩ := pair_of_lookupFile files name incs hlook
        have hinckeys : ∀ i ∈ incs, i ∈ files.map Prod.fst := by
          intro i hi
          exact hcw pr hpr i (hsnd ▸ hi)
        have hrm : NotNotFound (runMany (loadOne files fuel (stack ++ [name])) incs) :=
          runMany_notNotFound _ _ (fun i hi => ih (stack ++ [name]) i (hinckeys i hi))
        split
        · simp
        · rename_i e hm
          have h2 := hrm n
          rw [hm] at h2
          simpa using h2
        · simp

/-- A file that reaches a cycle has an include that also reaches the cycle. -/
theorem step_of_reachesCycle (files : List (String × List String))
    (n : String) (h : ReachesCycle files n) :
    ∃ b, Step files n b ∧ ReachesCycle files b := by
  obtain ⟨a, hra, hta⟩ := h
  rcases Relation.ReflTransGen.cases_head hra with rfl | ⟨c, hnc, hca⟩
  · obtain ⟨b, hnb, hbn⟩ := (Relation.TransGen.head'_iff).mp hta
    exact ⟨b, hnb, n, hbn, hta⟩
  · exact ⟨c, hnc, a, hca, hta⟩

/-- A file that reaches a cycle can never be loaded successfully, whatever the
fuel and chain. -/
theorem loadOne_not_ok (files : List (String × List String)) :
    ∀ (fuel : Nat) (stack : List String) (name : String),
      ReachesCycle files name →
      ∀ v, loadOne files fuel stack name ≠ some (.ok v) := by
  intro fuel
  induction fuel with
  | zero => intro stack name _ v; simp [loadOne]
  | succ fuel ih =>
    intro stack name hrc v
    simp only [loadOne]
    by_cases hmem : name ∈ stack
    · simp [hmem]
    · simp only [hmem, if_false]
      obtain ⟨b, ⟨incs', hlook', hb⟩, hrcb⟩ := step_of_reachesCycle files name hrc
      split
      · simp
      · rename_i incs hlook
        have hincs : incs' = incs := by
          rw [hlook] at hlook'; exact (Option.some.inj hlook').symm
        subst hincs
        have hnot := runMany_not_ok (loadOne files fuel (stack ++ [name])) incs'
          b hb (fun w => ih (stack ++ [name]) b hrcb w)
        split
        · simp
        · simp
        · rename_i docs hm
          exact absurd hm (hnot docs)

/-- C7: the loader always terminates — with fuel `files.length + 1` it never
runs out on any input — and on every closed manifest collection whose include
graph reachable from the root contains a cycle (a file transitively includes
itself), loading fails with a `CyclicInclude` error identifying a cycle
chain. -/
theorem c7_cyclic_include_detected (files : List (String × List String))
    (root : String) (hcw : ClosedWorld files) (hcyc : ReachesCycle files root) :
    (∃ chain, load files root = .error (.CyclicInclude chain))
    ∧ ∀ (files' : List (String × List String)) (root' : String),
        loadOne files' (files'.length + 1) [] root' ≠ none := by
  have hterm : ∀ (files' : List (String × List String)) (root' : String),
      loadOne files' (files'.length + 1) [] root' ≠ none := by
    intro files' root'
    exact loadOne_ne_none files' (files'.length + 1) [] root'
      List.nodup_nil (by simp) (by simp)
  refine ⟨?_, hterm⟩
  have hkey : root ∈ files.map Prod.fst := by
    obtain ⟨b, ⟨incs, hlook, _⟩, _⟩ := step_of_reachesCycle files root hcyc
    exact mem_keys_of_lookupFile files root incs hlook
  cases hres : loadOne files (files.length + 1) [] root with
  | none => exact absurd hres (hterm files root)
  | some r =>
    cases r with
    | ok v =>
      exact absurd hres (loadOne_not_ok files (files.length + 1) [] root hcyc v)
    | error e =>
      cases e with
      | CyclicInclude chain =>
        refine ⟨chain, ?_⟩
        unfold load
        rw [hres]
        rfl
      | IncludeNotFound n =>
        exact absurd hres
          (loadOne_notNotFound files hcw (files.length + 1) [] root hkey n)

/-- C7, witness: the one-file collection in which `a` includes itself is
closed, reaches a cycle, and loading it fails with a `CyclicInclude` error. -/
theorem c7_witness :
    ClosedWorld [("a", ["a"])]
    ∧ ReachesCycle [("a", ["a"])] "a"
    ∧ (∃ chain, load [("a", ["a"])] "a" = .error (.CyclicInclude chain)) := by
  have hcw : ClosedWorld [("a", ["a"])] := by
    intro pr hpr i hi
    simp at hpr
    subst hpr
    simp at hi
    simp [hi]
  have hstep : Step [("a", ["a"])] "a" "a" := ⟨["a"], by decide, by simp⟩
  have hcyc : ReachesCycle [("a", ["a"])] "a" :=
    ⟨"a", Relation.ReflTransGen.refl, Relation.TransGen.single hstep⟩
  exact ⟨hcw, hcyc, (c7_cyclic_include_detected [("a", ["a"])] "a" hcw hcyc).1⟩

end Repox
